import Mathlib

/-!
Verification of the panini-scraper extraction engine against its
natural-language specification.

The TypeScript sources are shallowly embedded as Lean definitions:

- src/domain/product.repository.ts : the error taxonomy (JSError and the
  three ProductScrapingError classes) and the Product data model;
- src/domain/product.entity.ts : ProductEntity validation (validateEntity,
  mkProductEntity);
- src/infrastructure/paniniScraper.service.ts : the field extractors
  (extractTitle, extractPrices, extractPriceFromText, extractPreOrderStatus,
  extractStockStatus, extractFormat, extractContributors, extractImageUrl,
  tryConstructImageUrl, isPlaceholderImage, extractProductId), URL
  validation (validateUrlOk) and the single-URL pipeline (scrapeProduct);
- src/usecases/scrapeProduct.usecase.ts : execute, normalizeUrl and
  executeMany (the batch orchestrator).

Modelling conventions:

- JavaScript numbers are modelled as rationals; the price strings handled
  by the parser denote exact decimals, so no rounding is lost.
- The parsed cheerio document handle is modelled as an opaque queryable
  structure Doc: a map from selector strings to lists of elements, each
  element carrying its text, inner HTML, attributes, computed display
  style and its own sub-selector map. This mirrors the capability
  interface the service actually uses.
- Thrown JS exceptions are modelled with Except JSError; instanceof tests
  are modelled on the name field set by each error class constructor.
- The async/await sequencing of network calls is modelled by an explicit
  trace: every function that may call the HTTP client also returns the
  ordered list of URLs it fetched.
- JSON.parse (a JS runtime builtin, external to the repository) is an
  abstract parameter: a partial map from a string to a string-valued
  field lookup, mirroring exactly the access pattern of the source.
- String.prototype.toLowerCase is modelled on ASCII letters, which covers
  every phrase list and marker in the source.
-/

/-! ## JavaScript string primitives -/

/-- JS String.prototype.toLowerCase, ASCII fragment. -/
def jsToLower (s : String) : String := ⟨s.data.map Char.toLower⟩

/-- JS String.prototype.includes: substring containment. -/
def jsIncludes (s sub : String) : Bool := decide (sub.data <:+: s.data)

/-- Deduplication via JS Array.from(new Set(xs)): keeps the first
occurrence of each element, preserving first-seen order. -/
def setDedup (l : List String) : List String :=
  l.foldl (fun acc x => if acc.contains x then acc else acc ++ [x]) []

/-- Whitespace characters recognised by the model (ASCII fragment of the
JS regex class for whitespace). -/
def isWhite (c : Char) : Bool :=
  c = ' ' || c = '\t' || c = '\n' || c = '\r'

/-- ASCII letter or digit. -/
def isAsciiAlphanum (c : Char) : Bool :=
  (('a' ≤ c && c ≤ 'z') || ('A' ≤ c && c ≤ 'Z') || c.isDigit)

/-- Case-insensitive prefix test on character lists (models the /i regex
flag on ASCII letters). First argument is the pattern. -/
def ciIsPrefix : List Char → List Char → Bool
  | [], _ => true
  | _ :: _, [] => false
  | p :: ps, c :: cs => (p.toLower == c.toLower) && ciIsPrefix ps cs

/-- JS String.prototype.trim on the character list. -/
def trimChars (cs : List Char) : List Char :=
  ((cs.dropWhile isWhite).reverse.dropWhile isWhite).reverse

/-- JS String.prototype.trim. -/
def jsTrim (s : String) : String := ⟨trimChars s.data⟩

/-- JS String.prototype.startsWith. -/
def jsStartsWith (s pre : String) : Bool := pre.data.isPrefixOf s.data

/-- JS String.prototype.endsWith. -/
def jsEndsWith (s suf : String) : Bool := suf.data.isSuffixOf s.data

/-- Drop the first n characters. -/
def jsDropChars (s : String) (n : Nat) : String := ⟨s.data.drop n⟩

/-- Drop the last n characters (JS slice(0, -n)). -/
def jsDropRight (s : String) (n : Nat) : String := ⟨s.data.take (s.data.length - n)⟩

/-- Character count of a string (JS length for the ASCII and Latin
text handled here). -/
def jsLength (s : String) : Nat := s.data.length

/-- Split of a character list on a separator character. -/
def jsSplitChar (sep : Char) : List Char → List (List Char)
  | [] => [[]]
  | c :: cs =>
    match jsSplitChar sep cs with
    | [] => [[]]
    | h :: t => if c = sep then [] :: h :: t else (c :: h) :: t

/-- JS String.prototype.split with a single-character separator. -/
def jsSplit (sep : Char) (s : String) : List String :=
  (jsSplitChar sep s.data).map fun l => ⟨l⟩

deriving instance DecidableEq for Except

/-! ## Error taxonomy (src/domain/product.repository.ts)

JS errors are records carrying the dynamic class name, the message, and
the extra fields the ProductScrapingError hierarchy adds. -/

structure JSError where
  name : String
  message : String
  url : Option String
  statusCode : Option Nat
deriving DecidableEq, Repr

/-- Plain new Error(message). -/
def jsError (msg : String) : JSError := ⟨"Error", msg, none, none⟩

/-- Constructor of ProductScrapingError (base class). -/
def productScrapingError (msg url : String) : JSError :=
  ⟨"ProductScrapingError", msg, some url, none⟩

/-- Constructor of ProductNotFoundError: fixed message and status 404;
the single constructor argument is stored in the url field. -/
def productNotFoundError (url : String) : JSError :=
  ⟨"ProductNotFoundError", "Product not found or page structure has changed", some url, some 404⟩

/-- Constructor of InvalidUrlError: fixed message. -/
def invalidUrlError (url : String) : JSError :=
  ⟨"InvalidUrlError", "Invalid or malformed URL provided", some url, none⟩

/-- JS test "error instanceof ProductScrapingError": true exactly for the
three classes of the hierarchy. -/
def isProductScrapingErr (e : JSError) : Bool :=
  e.name == "ProductScrapingError" || e.name == "ProductNotFoundError" ||
    e.name == "InvalidUrlError"

/-- JS test "error instanceof ProductEntity" applied to a caught
exception. Every value thrown inside the service is an Error instance
(extractor errors, entity validation errors, transport errors), and a
ProductEntity is never thrown, so the test is constantly false. -/
def isProductEntityInstance (_e : JSError) : Bool := false

/-! ## Product data model (src/domain/product.entity.ts) -/

structure Product where
  title : String
  fullPrice : ℚ
  currentPrice : ℚ
  isPreOrder : Bool
  inStock : Bool
  imageUrl : String
  url : String
  format : String
  contributors : List String
  id : String
deriving DecidableEq, Repr

/-- Character class [-a-zA-Z0-9@:%._+~#=] of the entity URL regex. -/
def urlClassA (c : Char) : Bool :=
  c = '-' || isAsciiAlphanum c || c = '@' || c = ':' || c = '%' || c = '.' ||
    c = '_' || c = '+' || c = '~' || c = '#' || c = '='

/-- Character class [a-zA-Z0-9()] of the entity URL regex. -/
def urlClassB (c : Char) : Bool :=
  isAsciiAlphanum c || c = '(' || c = ')'

/-- Character class [-a-zA-Z0-9()@:%_+.~#?&/=] of the entity URL regex. -/
def urlClassC (c : Char) : Bool :=
  c = '-' || isAsciiAlphanum c || c = '(' || c = ')' || c = '@' || c = ':' ||
    c = '%' || c = '_' || c = '+' || c = '.' || c = '~' || c = '#' ||
    c = '?' || c = '&' || c = '/' || c = '='

/-- JS regex word character for the word-boundary assertion. -/
def isWordChar (c : Char) : Bool := isAsciiAlphanum c || c = '_'

/-- Tail of ProductEntity.isValidUrl after the scheme and optional www.:
matches CLASS_A{1,256} dot CLASS_B{1,6} word-boundary CLASS_C* end, by
searching over the finitely many split points the backtracking engine
would try. -/
def entityUrlTail (rest : List Char) : Bool :=
  (List.range (min rest.length 256)).any fun k =>
    let i := k + 1
    let a := rest.take i
    let rest1 := rest.drop i
    a.all urlClassA &&
      (match rest1 with
       | '.' :: rest2 =>
         (List.range (min rest2.length 6)).any fun k2 =>
           let j := k2 + 1
           let b := rest2.take j
           let rest3 := rest2.drop j
           b.all urlClassB &&
             (let bLast := b.getLastD ' '
              match rest3 with
              | [] => isWordChar bLast
              | n :: _ => isWordChar bLast != isWordChar n) &&
             rest3.all urlClassC
       | _ => false)

/-- ProductEntity.isValidUrl: the anchored URL-shape regex test. -/
def entityIsValidUrl (url : String) : Bool :=
  let after? : Option (List Char) :=
    if jsStartsWith url "https://" then some (url.data.drop 8)
    else if jsStartsWith url "http://" then some (url.data.drop 7)
    else none
  match after? with
  | none => false
  | some rest0 =>
    (if ciIsPrefix "www.".data rest0 = false then false
     else entityUrlTail (rest0.drop 4)) || entityUrlTail rest0

/-- ProductEntity.validate: the guard cascade run by the entity
constructor, in source order. A failing guard throws a plain Error. -/
def validateEntity (p : Product) : Except JSError Unit :=
  if p.title = "" || jsLength (jsTrim p.title) = 0 then
    .error (jsError "Product title is required")
  else if p.fullPrice < 0 then
    .error (jsError "Full price must be non-negative")
  else if p.currentPrice < 0 then
    .error (jsError "Current price must be non-negative")
  else if p.fullPrice < p.currentPrice then
    .error (jsError "Current price cannot be higher than full price")
  else if p.url = "" || entityIsValidUrl p.url = false then
    .error (jsError "Valid product URL is required")
  else if p.id = "" || jsLength (jsTrim p.id) = 0 then
    .error (jsError "Product ID is required")
  else .ok ()

/-- Construction of a ProductEntity: validate, then expose the data
(toJSON returns the same fields). -/
def mkProductEntity (p : Product) : Except JSError Product := do
  validateEntity p
  pure p

/-! ## Price parser (PaniniScraperService.extractPriceFromText) -/

/-- Character class [\d.,] of the price regex. -/
def isNumChar (c : Char) : Bool := c.isDigit || c = '.' || c = ','

/-- First maximal run matching the regex [\d.,]+ in a character list, as
JS String.prototype.match finds it: none when no character of the class
occurs. -/
def firstNumRun : List Char → Option (List Char)
  | [] => none
  | c :: cs =>
    if isNumChar c then some (c :: cs.takeWhile isNumChar)
    else firstNumRun cs

/-- JS replace(/\./g, empty): drop every dot. -/
def stripDots (cs : List Char) : List Char := cs.filter (fun c => !(c == '.'))

/-- JS replace with a string pattern: replace only the first comma by a
dot. -/
def replaceFirstComma : List Char → List Char
  | [] => []
  | c :: cs => if c = ',' then '.' :: cs else c :: replaceFirstComma cs

/-- Numeric value of a digit list, most significant first. -/
def digitsToNat (cs : List Char) : Nat :=
  cs.foldl (fun n c => 10 * n + (c.toNat - 48)) 0

/-- JS parseFloat restricted to the alphabet that can reach it here
(digits, dots, commas): reads an integer part, optionally a dot and a
fraction part, stops at the first unusable character; none models NaN
(no digits before the stop). -/
def parseJSFloat (cs : List Char) : Option ℚ :=
  match cs.drop (cs.takeWhile Char.isDigit).length with
  | '.' :: rest2 =>
    if (cs.takeWhile Char.isDigit).isEmpty && (rest2.takeWhile Char.isDigit).isEmpty then none
    else
      some ((digitsToNat (cs.takeWhile Char.isDigit) : ℚ) +
        (digitsToNat (rest2.takeWhile Char.isDigit) : ℚ) / 10 ^ (rest2.takeWhile Char.isDigit).length)
  | _ =>
    if (cs.takeWhile Char.isDigit).isEmpty then none
    else some (digitsToNat (cs.takeWhile Char.isDigit) : ℚ)

/-- PaniniScraperService.extractPriceFromText: falsy text gives 0; match
the first [\d.,]+ run; strip dots; replace the first comma by a dot;
parseFloat with NaN coerced to 0 by the trailing disjunction with 0. -/
def extractPriceFromText (text : String) : ℚ :=
  if text = "" then 0
  else
    match firstNumRun text.data with
    | none => 0
    | some run => (parseJSFloat (replaceFirstComma (stripDots run))).getD 0


/-! ## Parsed document model (the cheerio capability interface)

A selection is a list of elements in document order. An element carries
its concatenated text, its inner HTML, its attribute list, its computed
display style, and a sub-selector map for find calls on the element. -/

inductive El : Type where
  | node (text inner : String) (attrs : List (String × String))
      (display : Option String) (children : String → List El) : El

/-- Text content of an element. -/
def El.textOf : El → String
  | .node t _ _ _ _ => t

/-- Inner HTML of an element (used for script tags). -/
def El.innerOf : El → String
  | .node _ i _ _ _ => i

/-- Attribute lookup; none models an undefined attribute. -/
def El.attrOf : El → String → Option String
  | .node _ _ as _ _, name => as.lookup name

/-- Computed display style, as cheerio css would report it. -/
def El.displayOf : El → Option String
  | .node _ _ _ d _ => d

/-- Sub-selector query on an element (cheerio element.find). -/
def El.childOf : El → String → List El
  | .node _ _ _ _ ch, sel => ch sel

/-- A parsed document: the selector function the service queries. -/
structure Doc where
  find : String → List El

/-- Text of a selection: cheerio text() concatenates the texts of all
matched elements in order. -/
def selText (els : List El) : String :=
  els.foldl (fun a e => a ++ e.textOf) ""

/-- Find over a selection: union of element.find results in order. -/
def selFind (els : List El) (sel : String) : List El :=
  els.foldl (fun a e => a ++ e.childOf sel) []

/-- Text of the first element of a selection, empty when the selection
is empty (cheerio first().text()). -/
def firstText (doc : Doc) (sel : String) : String :=
  ((doc.find sel).head?.map El.textOf).getD ""

/-- JS disjunction chain img.attr(a1) or img.attr(a2) or ... or the empty
string: first attribute that is defined and non-empty. -/
def attrChain (el : El) (names : List String) : String :=
  match names.findSome? (fun n =>
    match el.attrOf n with
    | some v => if v = "" then none else some v
    | none => none) with
  | some v => v
  | none => ""

/-! ## Field extractors (PaniniScraperService) -/

/-- PaniniScraperService.extractTitle: first selector with non-empty
trimmed text wins, otherwise a ProductNotFoundError whose constructor
argument is the message string. -/
def extractTitle (doc : Doc) : Except JSError String :=
  let selectors := [".product-title", ".product-name", "h1.title", "h1",
    ".page-title", "[data-testid=\"product-title\"]"]
  match selectors.findSome? (fun sel =>
    let title := jsTrim (firstText doc sel)
    if title = "" then none else some title) with
  | some t => .ok t
  | none => .error (productNotFoundError "Could not find product title")

/-- Selector lists of PaniniScraperService.extractPrices. -/
def fullPriceSelectors : List String :=
  [".old-price", ".price-original", ".price-old", ".was-price",
    ".regular-price", ".price.old"]

def currentPriceSelectors : List String :=
  [".price-current", ".current-price", ".new-price", ".price-sale",
    ".sale-price", ".special-price", ".price.new", ".price"]

def generalPriceSelectors : List String :=
  [".product-price", "[data-testid=\"price\"]", ".value", ".amount",
    ".price-box .price"]

/-- First selector whose first-element text parses to a positive price. -/
def firstPositivePrice (doc : Doc) (selectors : List String) : Option ℚ :=
  selectors.findSome? (fun sel =>
    let extracted := extractPriceFromText (firstText doc sel)
    if 0 < extracted then some extracted else none)

/-- PaniniScraperService.extractPrices: full price from the original
price selectors, current price from the sale selectors with a general
fallback; a zero full price is replaced by the current price; a zero
current price is a ProductNotFoundError. -/
def extractPrices (doc : Doc) : Except JSError (ℚ × ℚ) :=
  let fullPrice := (firstPositivePrice doc fullPriceSelectors).getD 0
  let currentPrice₀ := (firstPositivePrice doc currentPriceSelectors).getD 0
  let currentPrice :=
    if currentPrice₀ = 0 then (firstPositivePrice doc generalPriceSelectors).getD 0
    else currentPrice₀
  let fullPrice' := if fullPrice = 0 then currentPrice else fullPrice
  if currentPrice = 0 then
    .error (productNotFoundError "Could not find product price")
  else .ok (fullPrice', currentPrice)

/-- Stages (b) and (c) of PaniniScraperService.extractPreOrderStatus:
the availability/status containers, then the product-area text. -/
def preOrderStagesBC (doc : Doc) : Bool :=
  let preOrderSelectors := [".product-availability", ".availability-info",
    ".product-status", ".status-info", ".preorder-info"]
  if preOrderSelectors.any (fun sel =>
      let els := doc.find sel
      !els.isEmpty &&
        (let text := jsToLower (selText els)
         jsIncludes text "pré-venda" || jsIncludes text "pre-order" ||
           jsIncludes text "pré-lançamento")) then
    true
  else
    let productArea := jsToLower (selText (doc.find ".product-main, .product-info, .product-details"))
    if productArea = "" then false
    else
      ["pré-venda", "pre-order", "pré-lançamento"].any fun indicator =>
        jsIncludes productArea indicator

/-- PaniniScraperService.extractPreOrderStatus: the dedicated pre-sale
indicator matches only when its text contains the marker and its display
style differs from none; otherwise stages (b) and (c) decide. -/
def extractPreOrderStatus (doc : Doc) : Bool :=
  let preOrderElement := doc.find ".infobase-label-presale"
  match preOrderElement.head? with
  | some el =>
    let preOrderText := jsTrim (jsToLower (selText preOrderElement))
    let display := el.displayOf
    if jsIncludes preOrderText "pré-venda" && !(display == some "none") then true
    else preOrderStagesBC doc
  | none => preOrderStagesBC doc

/-- PaniniScraperService.extractStockStatus: in stock unless one of the
out-of-stock phrases occurs in the page text. -/
def extractStockStatus (doc : Doc) : Bool :=
  let outOfStockIndicators := ["produto indisponível", "fora de estoque",
    "esgotado", "sem estoque", "indisponível"]
  let pageText := jsToLower (selText (doc.find "body"))
  !(outOfStockIndicators.any fun indicator => jsIncludes pageText indicator)

/-- Details-table selector shared by format, contributors and id. -/
def detailsTableSel : String := "table.additional-attributes, #product-attribute-specs-table"

/-- Rows of the details table as the source iterates them. -/
def detailsRows (doc : Doc) : List El := selFind (doc.find detailsTableSel) "tr"

/-- Shared row probe: the data-th attribute of the first td[data-th] cell
of a row, and the concatenated trimmed cell text. -/
def rowDataTh (row : El) : Option String :=
  (row.childOf "td[data-th]").head?.bind (fun cell => cell.attrOf "data-th")

def rowCellText (row : El) : String :=
  jsTrim (selText (row.childOf "td[data-th]"))

/-- PaniniScraperService.extractFormat: the Encadernação cell, then a
row scan for labels containing encadernação or formato, then the fixed
sentinel. -/
def extractFormat (doc : Doc) : String :=
  let formatCell := doc.find "td[data-th=\"Encadernação\"]"
  let primary :=
    if formatCell.isEmpty then none
    else
      let format := jsTrim (selText formatCell)
      if format = "" then none else some format
  match primary with
  | some f => f
  | none =>
    let fallback :=
      if (doc.find detailsTableSel).isEmpty then none
      else
        (detailsRows doc).findSome? (fun row =>
          match rowDataTh row with
          | some dataTh =>
            if dataTh ≠ "" &&
                (jsIncludes (jsToLower dataTh) "encadernação" ||
                  jsIncludes (jsToLower dataTh) "formato") then
              let value := rowCellText row
              if value = "" then none else some value
            else none
          | none => none)
    match fallback with
    | some f => f
    | none => "Formato não especificado"

/-- Split, trim and filter applied to an authors cell text: split on
commas, trim each token, keep non-empty tokens shorter than 100
characters. -/
def splitNames (t : String) : List String :=
  ((jsSplit ',' t).map jsTrim).filter fun n => !(n == "") && jsLength n < 100

/-- PaniniScraperService.extractContributors: the Autores cell split and
filtered; on an empty result a row scan for labels containing autor,
roteiro or arte; duplicates removed keeping the first occurrence. -/
def extractContributors (doc : Doc) : List String :=
  let authorsCell := doc.find "td[data-th=\"Autores\"]"
  let primary :=
    if authorsCell.isEmpty then []
    else
      let authorsText := jsTrim (selText authorsCell)
      if authorsText = "" then [] else splitNames authorsText
  let contributors :=
    if primary.isEmpty then
      let fallback :=
        if (doc.find detailsTableSel).isEmpty then none
        else
          (detailsRows doc).findSome? (fun row =>
            match rowDataTh row with
            | some dataTh =>
              if dataTh ≠ "" &&
                  (jsIncludes (jsToLower dataTh) "autor" ||
                    jsIncludes (jsToLower dataTh) "roteiro" ||
                    jsIncludes (jsToLower dataTh) "arte") then
                let value := rowCellText row
                if value = "" then none else some (splitNames value)
              else none
            | none => none)
      fallback.getD []
    else primary
  setDedup contributors

/-! ## Image extraction (PaniniScraperService.extractImageUrl) -/

/-- Base URL of the service instance. -/
def baseUrl : String := "https://panini.com.br"

/-- Placeholder marker list of PaniniScraperService.isPlaceholderImage. -/
def placeholderPatterns : List String :=
  ["placeholder", "default/panini-placeholder", "no-image", "loading", "spinner"]

/-- PaniniScraperService.isPlaceholderImage: case-insensitive substring
match against the marker list. -/
def isPlaceholderImage (src : String) : Bool :=
  placeholderPatterns.any fun pattern =>
    jsIncludes (jsToLower src) (jsToLower pattern)

/-- Attribute values the image scans read, in source order. -/
def imgSrcAttrs (img : El) : List (Option String) :=
  [img.attrOf "src", img.attrOf "data-src", img.attrOf "data-lazy",
    img.attrOf "data-original"]

/-- Selector list of the first image stage. -/
def externalImageSources : List String :=
  ["img[src*=\"cloudfront\"]", "img[src*=\"amazonaws.com\"]",
    "img[data-src*=\"cloudfront\"]", "img[data-original*=\"cloudfront\"]",
    "img[data-lazy*=\"cloudfront\"]"]

/-- Stage one: first externalImageSources selector whose first element
yields a non-empty, non-placeholder attribute chain value. -/
def imageStageOne (doc : Doc) : Option String :=
  externalImageSources.findSome? fun sel =>
    let src :=
      match (doc.find sel).head? with
      | some img => attrChain img ["src", "data-src", "data-lazy", "data-original"]
      | none => ""
    if !(src == "") && !isPlaceholderImage src then some src else none

/-- Stage two: the each loop over every img element looking for a CDN
attribute value; the first qualifying attribute of the first qualifying
element wins. -/
def findExternalImage : List El → String
  | [] => ""
  | img :: rest =>
    match (imgSrcAttrs img).findSome? (fun src? =>
      match src? with
      | some src =>
        if !(src == "") && (jsIncludes src "cloudfront" || jsIncludes src "amazonaws.com") &&
            !isPlaceholderImage src then some src
        else none
      | none => none) with
    | some s => s
    | none => findExternalImage rest

/-! Regex models for tryConstructImageUrl. -/

/-- Character admitted by the regex class excluding quotes and
whitespace. -/
def isBodyChar (c : Char) : Bool :=
  !(c == '"') && !(c == '\'') && !isWhite c

/-- Image extension alternation of the regexes, in source order. -/
def imageExts : List String := ["jpg", "jpeg", "png", "webp"]

/-- Backtracking search for the split of a quote-and-space-free run into
body dot extension: the greedy engine tries the longest body first, and
the alternatives in order. Returns the matched length within the run. -/
def bestExtSplit (body : List Char) : Option Nat :=
  (List.range body.length).reverse.findSome? fun i =>
    if i = 0 then none
    else
      match body.drop i with
      | '.' :: restE =>
        imageExts.findSome? fun ext =>
          if ciIsPrefix ext.data restE then some (i + 1 + ext.length) else none
      | _ => none

/-- Attempted match of the CloudFront image regex at the head of the
character list, returning the match length. -/
def cfMatchAt (cs : List Char) : Option Nat :=
  if ciIsPrefix "https://d".data cs then
    let rest1 := cs.drop 9
    let dom := rest1.takeWhile fun c => (('a' ≤ c && c ≤ 'z') || ('A' ≤ c && c ≤ 'Z') || c.isDigit)
    if dom.isEmpty then none
    else
      let rest2 := rest1.drop dom.length
      if ciIsPrefix ".cloudfront.net/".data rest2 then
        let body := (rest2.drop 16).takeWhile isBodyChar
        (bestExtSplit body).map fun blen => 9 + dom.length + 16 + blen
      else none
  else none

/-- First match of the CloudFront image regex anywhere in the list. -/
def cfScan : List Char → Option (List Char)
  | [] => none
  | cs@(_ :: rest) =>
    match cfMatchAt cs with
    | some len => some (cs.take len)
    | none => cfScan rest

/-- JS scriptContent.match(cloudFrontRegex) restricted to its first
element. -/
def cfFirstMatch (s : String) : Option String :=
  (cfScan s.data).map fun l => ⟨l⟩

/-- Attempted match of the generic https image regex at the head of the
list, returning the match length. -/
def cdnMatchAt (cs : List Char) : Option Nat :=
  if ciIsPrefix "https://".data cs then
    let body := (cs.drop 8).takeWhile isBodyChar
    (bestExtSplit body).map fun blen => 8 + blen
  else none

/-- Fuel-driven scan collecting all matches of the generic https image
regex as the global flag does: leftmost first, resuming after each
match. The fuel bounds the number of scan steps; each step consumes at
least one character, so a fuel equal to the list length is exact. -/
def cdnScanGo : Nat → List Char → List (List Char)
  | 0, _ => []
  | _, [] => []
  | fuel + 1, cs@(_ :: rest) =>
    match cdnMatchAt cs with
    | some len => cs.take len :: cdnScanGo fuel (cs.drop len)
    | none => cdnScanGo fuel rest

/-- All matches of the generic https image regex. -/
def cdnScan (cs : List Char) : List (List Char) := cdnScanGo cs.length cs

/-- JS scriptContent.match(cdnImageRegex) with the global flag. -/
def cdnAllMatches (s : String) : List String :=
  (cdnScan s.data).map fun l => ⟨l⟩

/-- One-pass automaton for the brace-delimited JSON fragment regex. The
accumulator holds the reversed body collected since the last unmatched
opening brace, when one is open. A closing brace ends the fragment,
which is kept when its body contains the quoted key; another opening
brace restarts collection, since the previous opening brace can no
longer head a match of the brace-free body pattern. -/
def braceFragsGo (key : String) : Option (List Char) → List Char → List String
  | _, [] => []
  | none, c :: cs =>
    if c = '{' then braceFragsGo key (some []) cs else braceFragsGo key none cs
  | some acc, c :: cs =>
    if c = '}' then
      (if jsIncludes ⟨acc.reverse⟩ ("\"" ++ key ++ "\"") then
        [(⟨'{' :: (acc.reverse ++ ['}'])⟩ : String)]
      else []) ++ braceFragsGo key none cs
    else if c = '{' then braceFragsGo key (some []) cs
    else braceFragsGo key (some (c :: acc)) cs

/-- Fragments matched by the brace-delimited JSON regex for a given key:
brace-free spans between an opening and the next closing brace whose
body contains the quoted key. -/
def braceFrags (key : String) (cs : List Char) : List String :=
  braceFragsGo key none cs

/-- The field names probed on a parsed JSON fragment, in source order. -/
def imageFields : List String := ["image", "src", "url", "imageUrl", "photo"]

/-- The abstract type of JSON.parse: for a fragment string, either a
failure (an exception the source ignores) or a lookup of string-valued
fields of the parsed object. -/
def JsonParse : Type := String → Option (String → Option String)

/-- The JSON branch of tryConstructImageUrl: the matched fragment lists
for the keys image, src and url are tried with the JS disjunction (the
first non-null match result is used); each fragment is parsed, each
image field probed; a defined non-empty string value that is not a
placeholder and is absolute or root-relative wins, with root-relative
values resolved against the base URL. -/
def jsonImageRef (jsonParse : JsonParse) (content : String) : Option String :=
  let f1 := braceFrags "image" content.data
  let f2 := braceFrags "src" content.data
  let f3 := braceFrags "url" content.data
  let jsonMatches := if !f1.isEmpty then f1 else if !f2.isEmpty then f2 else f3
  jsonMatches.findSome? fun frag =>
    match jsonParse frag with
    | none => none
    | some obj =>
      imageFields.findSome? fun field =>
        match obj field with
        | some imageUrl =>
          if !(imageUrl == "") && !isPlaceholderImage imageUrl &&
              (jsIncludes imageUrl "http" || jsStartsWith imageUrl "/") then
            some (if jsStartsWith imageUrl "/" then baseUrl ++ imageUrl else imageUrl)
          else none
        | none => none

/-- Script processing of tryConstructImageUrl for one script: the JSON
branch, then the direct CloudFront regex (returned without a placeholder
check), then the generic https image regex filtered for placeholders and
social-media domains. -/
def scriptImage (jsonParse : JsonParse) (content : String) : Option String :=
  match jsonImageRef jsonParse content with
  | some v => some v
  | none =>
    match cfFirstMatch content with
    | some u => some u
    | none =>
      let validImages := (cdnAllMatches content).filter fun url =>
        !isPlaceholderImage url && !jsIncludes url "facebook.com" &&
          !jsIncludes url "twitter.com" && !jsIncludes url "instagram.com"
      validImages.head?

/-- PaniniScraperService.tryConstructImageUrl: the scripts are processed
in document order; the first script yielding a reference wins. -/
def tryConstructImageUrl (jsonParse : JsonParse) (doc : Doc) : String :=
  let rec go : List El → String
    | [] => ""
    | s :: rest =>
      match scriptImage jsonParse s.innerOf with
      | some img => img
      | none => go rest
  go (doc.find "script")

/-- Selector list of the structural image stage. -/
def imageSelectors : List String :=
  [".product-image img", ".product-photo img", ".main-image img",
    ".product-gallery img", ".gallery img:first", ".hero-image img",
    ".primary-image img", "[data-testid=\"product-image\"] img",
    ".product-media img", "img[alt*=\"produto\"]", "img[alt*=\"product\"]"]

/-- Extension or CDN test applied after relative resolution. -/
def hasImageExtOrCdn (src : String) : Bool :=
  jsIncludes src ".jpg" || jsIncludes src ".jpeg" || jsIncludes src ".png" ||
    jsIncludes src ".webp" || jsIncludes src "cloudfront"

/-- Structural selector stage: non-placeholder attribute chain value,
relative paths resolved against the base URL, kept when it has an image
extension or CDN marker and is still not a placeholder. -/
def imageStageFour (doc : Doc) : Option String :=
  imageSelectors.findSome? fun sel =>
    let src₀ :=
      match (doc.find sel).head? with
      | some img => attrChain img ["src", "data-src", "data-lazy", "data-original"]
      | none => ""
    if !(src₀ == "") && !isPlaceholderImage src₀ then
      let src := if jsStartsWith src₀ "/" then baseUrl ++ src₀ else src₀
      if hasImageExtOrCdn src && !isPlaceholderImage src then some src else none
    else none

/-- Container selector list of the next image stage. -/
def containerSelectors : List String :=
  [".product-image-main", ".product-images", ".image-container", ".hero-section"]

/-- Container stage: first img inside each container, src or data-src
only, with the same resolution and checks as the structural stage. -/
def imageStageContainers (doc : Doc) : Option String :=
  containerSelectors.findSome? fun containerSelector =>
    let container := doc.find containerSelector
    if container.isEmpty then none
    else
      let src₀ :=
        match (selFind container "img").head? with
        | some img => attrChain img ["src", "data-src"]
        | none => ""
      if !(src₀ == "") && !isPlaceholderImage src₀ then
        let src := if jsStartsWith src₀ "/" then baseUrl ++ src₀ else src₀
        if hasImageExtOrCdn src && !isPlaceholderImage src then some src else none
      else none

/-- Qualification test of the last-resort stage for one attribute value:
non-placeholder, not a logo, navigation, icon or banner path, and with an
image extension. -/
def fallbackQualifies (src : String) : Bool :=
  !(src == "") && !isPlaceholderImage src &&
    !jsIncludes src "logo" && !jsIncludes src "nav" && !jsIncludes src "icon" &&
    !jsIncludes src "banner" &&
    (jsIncludes src ".jpg" || jsIncludes src ".jpeg" || jsIncludes src ".png" ||
      jsIncludes src ".webp")

/-- Last-resort stage: the each loop over all img elements keeps the
first qualifying attribute value, resolved against the base URL. -/
def fallbackScan (imgs : List El) : String :=
  imgs.foldl (fun acc img =>
    (imgSrcAttrs img).foldl (fun acc2 src? =>
      match src? with
      | some src =>
        if fallbackQualifies src then
          let absoluteSrc := if jsStartsWith src "/" then baseUrl ++ src else src
          if acc2 = "" then absoluteSrc else acc2
        else acc2
      | none => acc2) acc) ""

/-- PaniniScraperService.extractImageUrl: the staged search with early
returns, ending in the empty string as the valid absent-image value. -/
def extractImageUrl (jsonParse : JsonParse) (doc : Doc) : String :=
  match imageStageOne doc with
  | some src => src
  | none =>
    let foundExternalImage := findExternalImage (doc.find "img")
    if foundExternalImage ≠ "" then foundExternalImage
    else
      let constructedImageUrl := tryConstructImageUrl jsonParse doc
      if constructedImageUrl ≠ "" then constructedImageUrl
      else
        match imageStageFour doc with
        | some src => src
        | none =>
          match imageStageContainers doc with
          | some src => src
          | none =>
            let fallbackImage := fallbackScan (doc.find "img")
            if fallbackImage ≠ "" then fallbackImage else ""

/-! ## Product identifier (PaniniScraperService.extractProductId) -/

/-- Characters of the captured reference token class, under the
case-insensitive flag. -/
def refTokenChar (c : Char) : Bool := isAsciiAlphanum c || c = '-' || c = '_'

/-- Characters skipped between the reference label and the token. -/
def refSkipChar (c : Char) : Bool := c = ':' || isWhite c

/-- First match of the page-wide reference regex: the label referência
case-insensitively, optional colons and whitespace, then a non-empty
token. -/
def refScan : List Char → Option String
  | [] => none
  | cs@(_ :: rest) =>
    if ciIsPrefix "referência".data cs then
      let tok := ((cs.drop 10).dropWhile refSkipChar).takeWhile refTokenChar
      if tok.isEmpty then refScan rest else some ⟨tok⟩
    else refScan rest

/-- Selector list of the generic id fallback. -/
def idSelectors : List String :=
  ["[data-product-id]", "[data-sku]", ".product-sku", ".sku",
    ".product-code", ".reference", ".codigo-produto"]

/-- PaniniScraperService.extractProductId: Referência cell, generic id
attributes, details-table row scan, page-wide regex, then the last URL
path segment, with a timestamp-based synthetic id as last resort. -/
def extractProductId (doc : Doc) (url : String) (nowMs : Nat) : String :=
  let referenceCell := doc.find "td[data-th=\"Referência\"]"
  let primary :=
    if referenceCell.isEmpty then none
    else
      let reference := jsTrim (selText referenceCell)
      if reference = "" then none else some reference
  match primary with
  | some r => r
  | none =>
    let bySelector := idSelectors.findSome? fun sel =>
      match (doc.find sel).head? with
      | some element =>
        let id :=
          match element.attrOf "data-product-id" with
          | some v =>
            if v = "" then
              match element.attrOf "data-sku" with
              | some w => if w = "" then jsTrim element.textOf else w
              | none => jsTrim element.textOf
            else v
          | none =>
            match element.attrOf "data-sku" with
            | some w => if w = "" then element.textOf.trim else w
            | none => element.textOf.trim
        if id = "" then none else some id
      | none => none
    match bySelector with
    | some r => r
    | none =>
      let byRow :=
        if (doc.find detailsTableSel).isEmpty then none
        else
          (detailsRows doc).findSome? (fun row =>
            match rowDataTh row with
            | some dataTh =>
              if dataTh ≠ "" &&
                  (jsIncludes (jsToLower dataTh) "referência" ||
                    jsIncludes (jsToLower dataTh) "código" ||
                    jsIncludes (jsToLower dataTh) "sku") then
                let value := rowCellText row
                if value = "" then none else some value
              else none
            | none => none)
      match byRow with
      | some r => r
      | none =>
        match refScan (selText (doc.find "body")).data with
        | some r => r
        | none =>
          let lastPart := (jsSplit '/' url).getLastD ""
          let cleanId := (jsSplit '.' ((jsSplit '?' lastPart).headD "")).headD ""
          if cleanId ≠ "" then cleanId else "panini-" ++ toString nowMs

/-! ## Single-URL pipeline (PaniniScraperService.scrapeProduct) -/

/-- The domain regex of PaniniScraperService.validateUrl: the URL must
begin with http or https scheme, optional www., then panini.com.br. -/
def paniniUrlTest (url : String) : Bool :=
  let rest? : Option String :=
    if jsStartsWith url "https://" then some (jsDropChars url 8)
    else if jsStartsWith url "http://" then some (jsDropChars url 7)
    else none
  match rest? with
  | none => false
  | some r =>
    let r2 := if jsStartsWith r "www." then jsDropChars r 4 else r
    jsStartsWith r2 "panini.com.br"

/-- PaniniScraperService.validateUrl: falsy or non-matching URLs throw
an InvalidUrlError before any network activity. -/
def validateUrlOk (url : String) : Bool :=
  !(url == "") && paniniUrlTest url

/-- Inner try block of scrapeProduct: fetch and parse the page (the
composed HTTP client and cheerio.load are the abstract net argument),
run every extractor in source order, construct the validated entity. -/
def scrapeAttempt (net : String → Except JSError Doc) (jsonParse : JsonParse)
    (nowMs : Nat) (url : String) : Except JSError Product := do
  let doc ← net url
  let title ← extractTitle doc
  let prices ← extractPrices doc
  let isPreOrder := extractPreOrderStatus doc
  let inStock := extractStockStatus doc
  let imageUrl := extractImageUrl jsonParse doc
  let format := extractFormat doc
  let contributors := extractContributors doc
  let id := extractProductId doc url nowMs
  mkProductEntity
    ⟨title, prices.1, prices.2, isPreOrder, inStock, imageUrl, url, format, contributors, id⟩

/-- PaniniScraperService.scrapeProduct with its fetch trace: validation
happens outside the try block, so an InvalidUrlError propagates
unchanged and no fetch occurs; every exception thrown inside the try
block hits the catch, whose rethrow guard tests instanceof ProductEntity
and is therefore never taken, so the exception is wrapped into a fresh
generic ProductScrapingError. -/
def scrapeProduct (net : String → Except JSError Doc) (jsonParse : JsonParse)
    (nowMs : Nat) (url : String) : Except JSError Product × List String :=
  if validateUrlOk url = false then (.error (invalidUrlError url), [])
  else
    match scrapeAttempt net jsonParse nowMs url with
    | .ok p => (.ok p, [url])
    | .error e =>
      if isProductEntityInstance e then (.error e, [url])
      else
        (.error (productScrapingError ("Failed to scrape product: " ++ e.message) url), [url])

/-! ## Use case (src/usecases/scrapeProduct.usecase.ts) -/

/-- ScrapeProductUseCase.normalizeUrl: strip one trailing slash, then
prepend the https scheme when no http or https scheme is present. -/
def normalizeUrl (url : String) : String :=
  let normalized := if jsEndsWith url "/" then jsDropRight url 1 else url
  if !(jsStartsWith normalized "http://") && !(jsStartsWith normalized "https://") then
    "https://" ++ normalized
  else normalized

/-- ScrapeProductUseCase.execute with its fetch trace: reject empty and
whitespace-only input with an InvalidUrlError, then normalize and
delegate to the repository scrapeProduct. -/
def execute (net : String → Except JSError Doc) (jsonParse : JsonParse)
    (nowMs : Nat) (url : String) : Except JSError Product × List String :=
  if url = "" || jsLength (jsTrim url) = 0 then
    (.error (invalidUrlError (if url = "" then "" else url)), [])
  else scrapeProduct net jsonParse nowMs (normalizeUrl (jsTrim url))

/-- BatchScrapeResult as executeMany assembles it. -/
structure BatchScrapeResult where
  successes : List (String × Product)
  failures : List (String × JSError × String)
  totalProcessed : Nat
  successCount : Nat
  failureCount : Nat
deriving DecidableEq, Repr

/-- Loop body of ScrapeProductUseCase.executeMany: run execute on one
URL; a success is appended to successes; a caught error is kept when it
is a ProductScrapingError instance and otherwise wrapped, then appended
to failures together with its message. The third component accumulates
the fetch trace. -/
def batchStep (net : String → Except JSError Doc) (jsonParse : JsonParse) (nowMs : Nat)
    (acc : List (String × Product) × List (String × JSError × String) × List String)
    (url : String) :
    List (String × Product) × List (String × JSError × String) × List String :=
  let r := execute net jsonParse nowMs url
  match r.1 with
  | .ok product => (acc.1 ++ [(url, product)], acc.2.1, acc.2.2 ++ r.2)
  | .error e =>
    let scrapingError :=
      if isProductScrapingErr e then e
      else productScrapingError e.message url
    (acc.1, acc.2.1 ++ [(url, scrapingError, scrapingError.message)], acc.2.2 ++ r.2)

/-- ScrapeProductUseCase.executeMany with its fetch trace: the URLs are
processed sequentially in input order by a fold over the input list, and
the counts are derived at the end exactly as the source does. -/
def executeMany (net : String → Except JSError Doc) (jsonParse : JsonParse)
    (nowMs : Nat) (urls : List String) : BatchScrapeResult × List String :=
  let acc := urls.foldl (batchStep net jsonParse nowMs) ([], [], [])
  (⟨acc.1, acc.2.1, urls.length, acc.1.length, acc.2.1.length⟩, acc.2.2)

/-- The fetch a given input URL leads to: none when execute rejects the
input before the repository call or validateUrl rejects the normalized
URL before the HTTP request, otherwise the normalized URL passed to the
HTTP client. -/
def expectedFetch (url : String) : Option String :=
  if url = "" || jsLength (jsTrim url) = 0 then none
  else
    let n := normalizeUrl (jsTrim url)
    if validateUrlOk n then some n else none

/-! ## Concrete documents and collaborators used by the closed
theorems -/

/-- Element with text only. -/
def textEl (t : String) : El := .node t "" [] none fun _ => []

/-- Element with inner HTML only (a script tag). -/
def scriptEl (code : String) : El := .node "" code [] none fun _ => []

/-- The empty document: every selector matches nothing. -/
def emptyDoc : Doc := ⟨fun _ => []⟩

/-- A page whose heading yields a title but that carries no price at
all. -/
def titleOnlyDoc : Doc :=
  ⟨fun sel => if sel = "h1" then [textEl "Produto Teste"] else []⟩

/-- A details table page whose authors cell holds the given text. -/
def authorsDoc (t : String) : Doc :=
  ⟨fun sel => if sel = "td[data-th=\"Autores\"]" then [textEl t] else []⟩

/-- A page whose dedicated pre-sale indicator carries the marker text
but is hidden by display none. -/
def hiddenPresaleDoc : Doc :=
  ⟨fun sel =>
    if sel = ".infobase-label-presale" then
      [.node "Pré-Venda" "" [] (some "none") fun _ => []]
    else []⟩

/-- A page whose only image source is a CloudFront placeholder URL
inside a script. -/
def cfPlaceholderDoc : Doc :=
  ⟨fun sel =>
    if sel = "script" then
      [scriptEl "var img = https://d1.cloudfront.net/placeholder.jpg ;"]
    else []⟩

/-- JSON.parse instance under which every fragment fails to parse. -/
def noJson : JsonParse := fun _ => none

/-- Transport that always fails with a connection error. -/
def failNet : String → Except JSError Doc := fun _ => .error (jsError "Network error")

/-- Transport that always returns the title-only page. -/
def titleOnlyNet : String → Except JSError Doc := fun _ => .ok titleOnlyDoc

/-- Transport that always returns the empty page. -/
def emptyNet : String → Except JSError Doc := fun _ => .ok emptyDoc

/-! ## Lemmas about the price parser -/

/-- takeWhile over an append whose left part satisfies the predicate. -/
theorem takeWhile_append_all {p : Char → Bool} {l l' : List Char}
    (h : ∀ c ∈ l, p c = true) :
    (l ++ l').takeWhile p = l ++ l'.takeWhile p := by
  induction l with
  | nil => rfl
  | cons c cs ih =>
    simp only [List.cons_append, List.takeWhile_cons, h c (by simp), if_true]
    rw [ih (fun x hx => h x (by simp [hx]))]

/-- takeWhile is empty when the head fails the predicate. -/
theorem takeWhile_eq_nil_of_head {p : Char → Bool} {l : List Char}
    (h : ∀ c, l.head? = some c → p c = false) : l.takeWhile p = [] := by
  cases l with
  | nil => rfl
  | cons c cs => simp [List.takeWhile_cons, h c rfl]

/-- The first numeric run skips a numeric-free prefix. -/
theorem firstNumRun_append_of_none {pre rest : List Char}
    (h : ∀ c ∈ pre, isNumChar c = false) :
    firstNumRun (pre ++ rest) = firstNumRun rest := by
  induction pre with
  | nil => rfl
  | cons c cs ih =>
    simp only [List.cons_append, firstNumRun, h c (by simp)]
    simp only [Bool.false_eq_true, if_false]
    exact ih (fun x hx => h x (by simp [hx]))

/-- The first numeric run of a numeric run followed by a non-numeric
boundary is the run itself. -/
theorem firstNumRun_of_run {run suf : List Char}
    (hrun : ∀ c ∈ run, isNumChar c = true) (hne : run ≠ [])
    (hsuf : ∀ c, suf.head? = some c → isNumChar c = false) :
    firstNumRun (run ++ suf) = some run := by
  cases run with
  | nil => exact absurd rfl hne
  | cons r rs =>
    simp only [List.cons_append, firstNumRun, hrun r (by simp), if_true]
    rw [List.append_eq, takeWhile_append_all (fun x hx => hrun x (by simp [hx])),
      takeWhile_eq_nil_of_head hsuf, List.append_nil]

/-- parseFloat on digits, a dot and a non-empty digit fraction. -/
theorem parseJSFloat_int_frac {ip fp : List Char}
    (hip : ∀ c ∈ ip, c.isDigit = true) (hfp : ∀ c ∈ fp, c.isDigit = true)
    (hfpne : fp ≠ []) :
    parseJSFloat (ip ++ '.' :: fp) =
      some ((digitsToNat ip : ℚ) + (digitsToNat fp : ℚ) / 10 ^ fp.length) := by
  have hint : (ip ++ '.' :: fp).takeWhile Char.isDigit = ip := by
    rw [takeWhile_append_all hip]
    simp [List.takeWhile_cons]
  have hfrac : fp.takeWhile Char.isDigit = fp := by
    have h0 := @takeWhile_append_all Char.isDigit fp [] hfp
    simpa using h0
  have hemp : fp.isEmpty = false := by
    cases fp with
    | nil => exact absurd rfl hfpne
    | cons a b => rfl
  unfold parseJSFloat
  rw [hint, List.drop_left]
  simp only []
  rw [hfrac, hemp]
  simp

/-- Dots distribute over append under stripping. -/
theorem stripDots_append (l r : List Char) :
    stripDots (l ++ r) = stripDots l ++ stripDots r := by
  simp [stripDots, List.filter_append]

/-- The first comma replaced in an append whose left part is
comma-free. -/
theorem replaceFirstComma_append {l : List Char} (r : List Char)
    (h : ∀ c ∈ l, c ≠ ',') :
    replaceFirstComma (l ++ ',' :: r) = l ++ '.' :: r := by
  induction l with
  | nil => simp [replaceFirstComma]
  | cons c cs ih =>
    simp only [List.cons_append, replaceFirstComma, h c (by simp)]
    simp only [if_false]
    rw [List.append_eq, ih (fun x hx => h x (by simp [hx]))]

/-- parseFloat never returns a negative value when it returns one. -/
theorem parseJSFloat_nonneg {cs : List Char} {q : ℚ}
    (h : parseJSFloat cs = some q) : 0 ≤ q := by
  unfold parseJSFloat at h
  split at h
  · split at h
    · exact absurd h (by simp)
    · have hq := Option.some.inj h
      rw [← hq]
      positivity
  · split at h
    · exact absurd h (by simp)
    · have hq := Option.some.inj h
      rw [← hq]
      positivity


/-- A string built from a non-empty character list is not empty. -/
theorem string_ne_empty_of_data {s : String} (h : s.data ≠ []) : s ≠ "" := by
  intro he
  subst he
  simp at h

/-- Evaluation of the price parser on a Brazilian-convention price text:
a numeric-free prefix, an integer part of digits and dots, a comma, a
non-empty digit fraction, and a suffix opening with a non-numeric
character. -/
theorem extractPriceFromText_brazilian (pre suf : String) (ip fp : List Char)
    (hpre : ∀ c ∈ pre.data, isNumChar c = false)
    (hip : ∀ c ∈ ip, c.isDigit = true ∨ c = '.')
    (hfp : ∀ c ∈ fp, c.isDigit = true) (hfpne : fp ≠ [])
    (hsuf : ∀ c, suf.data.head? = some c → isNumChar c = false) :
    extractPriceFromText (pre ++ (⟨ip ++ ',' :: fp⟩ : String) ++ suf) =
      (digitsToNat (ip.filter fun c => !(c == '.')) : ℚ) +
        (digitsToNat fp : ℚ) / 10 ^ fp.length := by
  set t : String := pre ++ (⟨ip ++ ',' :: fp⟩ : String) ++ suf with ht
  have hdata : t.data = pre.data ++ ((ip ++ ',' :: fp) ++ suf.data) := by
    rw [ht]
    rw [String.data_append, String.data_append]
    simp
  have hne : t ≠ "" := by
    apply string_ne_empty_of_data
    rw [hdata]
    simp
  have hrun : ∀ c ∈ ip ++ ',' :: fp, isNumChar c = true := by
    intro c hc
    rcases List.mem_append.mp hc with h1 | h2
    · rcases hip c h1 with hd | hd
      · simp [isNumChar, hd]
      · simp [isNumChar, hd]
    · rcases List.mem_cons.mp h2 with h3 | h3
      · simp [isNumChar, h3]
      · simp [isNumChar, hfp c h3]
  have hfnr : firstNumRun t.data = some (ip ++ ',' :: fp) := by
    rw [hdata, firstNumRun_append_of_none hpre]
    exact firstNumRun_of_run hrun (by simp) hsuf
  have hip' : ∀ c ∈ ip.filter (fun c => !(c == '.')), c.isDigit = true := by
    intro c hc
    have hm := List.mem_filter.mp hc
    rcases hip c hm.1 with hd | hd
    · exact hd
    · exfalso
      have := hm.2
      rw [hd] at this
      simp at this
  have hstrip : stripDots (ip ++ ',' :: fp) =
      ip.filter (fun c => !(c == '.')) ++ ',' :: fp := by
    rw [stripDots_append]
    have h1 : stripDots (',' :: fp) = ',' :: fp := by
      simp only [stripDots, List.filter_cons]
      have h2 : fp.filter (fun c => !(c == '.')) = fp :=
        List.filter_eq_self.mpr (fun c hc => by
          have hd := hfp c hc
          have hcne : c ≠ '.' := by
            intro hcc
            rw [hcc] at hd
            simp at hd
          simp [hcne])
      simp [h2]
    rw [h1]
    rfl
  have hrep : replaceFirstComma (ip.filter (fun c => !(c == '.')) ++ ',' :: fp) =
      ip.filter (fun c => !(c == '.')) ++ '.' :: fp := by
    apply replaceFirstComma_append
    intro c hc
    intro hcontra
    have := hip' c hc
    rw [hcontra] at this
    simp at this
  rw [extractPriceFromText, if_neg hne, hfnr]
  dsimp only
  rw [hstrip, hrep, parseJSFloat_int_frac hip' hfp hfpne]
  rfl

/-- A string without numeric characters has no numeric run. -/
theorem firstNumRun_eq_none {l : List Char} (h : ∀ c ∈ l, isNumChar c = false) :
    firstNumRun l = none := by
  induction l with
  | nil => rfl
  | cons c cs ih =>
    simp only [firstNumRun, h c (by simp), Bool.false_eq_true, if_false]
    exact ih (fun x hx => h x (by simp [hx]))

/-- Claim C5: the price parser maps every valid Brazilian-convention
price text to its decimal value by locating the first numeric substring,
stripping the dots, replacing the comma by a dot and parsing as a
decimal; in particular the text R$ 1.234,56 yields 1234.56; empty input
and input without numeric characters yield 0. -/
theorem claim_c5_price_parsing (pre suf : String) (ip fp : List Char)
    (hpre : ∀ c ∈ pre.data, isNumChar c = false)
    (hip : ∀ c ∈ ip, c.isDigit = true ∨ c = '.')
    (hfp : ∀ c ∈ fp, c.isDigit = true) (hfpne : fp ≠ [])
    (hsuf : ∀ c, suf.data.head? = some c → isNumChar c = false) :
    extractPriceFromText (pre ++ (⟨ip ++ ',' :: fp⟩ : String) ++ suf) =
      (digitsToNat (ip.filter fun c => !(c == '.')) : ℚ) +
        (digitsToNat fp : ℚ) / 10 ^ fp.length ∧
    extractPriceFromText "R$ 1.234,56" = (1234.56 : ℚ) ∧
    extractPriceFromText "" = 0 ∧
    ∀ t : String, (∀ c ∈ t.data, isNumChar c = false) → extractPriceFromText t = 0 := by
  refine ⟨extractPriceFromText_brazilian pre suf ip fp hpre hip hfp hfpne hsuf, ?_, rfl, ?_⟩
  · have h := extractPriceFromText_brazilian "R$ " "" ("1.234".data) ("56".data)
      (by decide) (by decide) (by decide) (by decide) (by intro c hc; simp at hc)
    have he : ("R$ " ++ (⟨"1.234".data ++ ',' :: "56".data⟩ : String) ++ "" : String) =
        "R$ 1.234,56" := by decide
    rw [he] at h
    rw [h]
    have h1 : digitsToNat (("1.234".data).filter fun c => !(c == '.')) = 1234 := by decide
    have h2 : digitsToNat "56".data = 56 := by decide
    have h3 : ("56".data).length = 2 := by decide
    rw [h1, h2, h3]
    norm_num
  · intro t ht
    rw [extractPriceFromText]
    by_cases hte : t = ""
    · simp [hte]
    · rw [if_neg hte, firstNumRun_eq_none ht]

/-- Witness for claim C5 at the concrete Brazilian price text. -/
theorem claim_c5_witness :
    extractPriceFromText ("R$ " ++ (⟨"1.234".data ++ ',' :: "56".data⟩ : String) ++ "") =
      (digitsToNat (("1.234".data).filter fun c => !(c == '.')) : ℚ) +
        (digitsToNat "56".data : ℚ) / 10 ^ ("56".data).length ∧
    extractPriceFromText "R$ 1.234,56" = (1234.56 : ℚ) ∧
    extractPriceFromText "" = 0 ∧
    extractPriceFromText "sob consulta" = 0 := by
  have h := claim_c5_price_parsing "R$ " "" ("1.234".data) ("56".data)
    (by decide) (by decide) (by decide) (by decide) (by intro c hc; simp at hc)
  exact ⟨h.1, h.2.1, h.2.2.1, h.2.2.2 "sob consulta" (by decide)⟩

/-- Claim C10: the price parser is total over all input strings and
always returns a non-negative rational; the NaN of a failed parse is
coerced to 0 by the source, modelled by the getD 0 default. -/
theorem claim_c10_parser_total (t : String) : 0 ≤ extractPriceFromText t := by
  rw [extractPriceFromText]
  by_cases hte : t = ""
  · simp [hte]
  · rw [if_neg hte]
    cases hr : firstNumRun t.data with
    | none => simp
    | some run =>
      simp only []
      cases hp : parseJSFloat (replaceFirstComma (stripDots run)) with
      | none => simp
      | some q =>
        simp only [Option.getD_some]
        exact parseJSFloat_nonneg hp

/-- A well-formed product record for the closed theorems. -/
def goodProduct : Product :=
  ⟨"Wolverine", 10, 8, false, true, "", "https://panini.com.br/wolverine-05",
    "Capa dura", [], "WOL05"⟩

/-- A record whose current price exceeds its full price. -/
def badProduct : Product :=
  ⟨"Wolverine", 10, 20, false, true, "", "https://panini.com.br/wolverine-05",
    "Capa dura", [], "WOL05"⟩

/-- Claim C4: every successfully assembled record satisfies the price
invariants, and a record whose current price exceeds its full price is
rejected by the entity validation with an error. -/
theorem claim_c4_price_invariant (p : Product) :
    (∀ r, mkProductEntity p = .ok r →
      0 ≤ r.fullPrice ∧ 0 ≤ r.currentPrice ∧ r.currentPrice ≤ r.fullPrice) ∧
    (p.fullPrice < p.currentPrice → ∃ e, mkProductEntity p = .error e) := by
  constructor
  · intro r h
    have hv : validateEntity p = .ok () := by
      cases hval : validateEntity p with
      | ok u => rfl
      | error e =>
        rw [mkProductEntity, hval] at h
        exact absurd h (by simp [Bind.bind, Except.bind])
    have hr : r = p := by
      rw [mkProductEntity, hv] at h
      simpa [Bind.bind, Except.bind, Pure.pure, Except.pure] using h.symm
    subst hr
    rw [validateEntity] at hv
    split_ifs at hv with h1 h2 h3 h4 h5 h6
    all_goals simp at hv
    exact ⟨le_of_not_lt h2, le_of_not_lt h3, le_of_not_lt h4⟩
  · intro hlt
    rw [mkProductEntity, validateEntity]
    split_ifs with h1 h2 h3 h4 <;> exact ⟨_, rfl⟩

/-- Witness for claim C4: a concrete valid record passes assembly and
satisfies the invariants, and a concrete violating record is rejected. -/
theorem claim_c4_witness :
    mkProductEntity goodProduct = .ok goodProduct ∧
    (0 ≤ goodProduct.fullPrice ∧ 0 ≤ goodProduct.currentPrice ∧
      goodProduct.currentPrice ≤ goodProduct.fullPrice) ∧
    badProduct.fullPrice < badProduct.currentPrice ∧
    (∃ e, mkProductEntity badProduct = .error e) := by
  have hok : mkProductEntity goodProduct = .ok goodProduct := by decide
  have hbad : badProduct.fullPrice < badProduct.currentPrice := by
    show (10 : ℚ) < 20
    norm_num
  exact ⟨hok, (claim_c4_price_invariant goodProduct).1 goodProduct hok, hbad,
    (claim_c4_price_invariant badProduct).2 hbad⟩

/-- Claim C1 evaluation: on a page with a title and no price (and on a
page with no title), the extractors signal not-found specifically, but
the single-URL pipeline delivers a fresh generic ProductScrapingError:
the rethrow guard of the catch block tests instanceof ProductEntity,
which no thrown value satisfies, so the ProductNotFoundError is wrapped
instead of propagating. -/
theorem claim_c1_notfound_reclassification :
    extractTitle titleOnlyDoc = .ok "Produto Teste" ∧
    extractPrices titleOnlyDoc = .error (productNotFoundError "Could not find product price") ∧
    (scrapeProduct titleOnlyNet noJson 0 "https://panini.com.br/no-price").1 =
      .error (productScrapingError
        "Failed to scrape product: Product not found or page structure has changed"
        "https://panini.com.br/no-price") ∧
    extractTitle emptyDoc = .error (productNotFoundError "Could not find product title") ∧
    (scrapeProduct emptyNet noJson 0 "https://panini.com.br/not-found").1 =
      .error (productScrapingError
        "Failed to scrape product: Product not found or page structure has changed"
        "https://panini.com.br/not-found") ∧
    (productScrapingError
        "Failed to scrape product: Product not found or page structure has changed"
        "https://panini.com.br/no-price").name ≠ "ProductNotFoundError" := by
  exact ⟨by decide, by decide, by decide, by decide, by decide, by decide⟩

/-- Claim C6: when the dedicated pre-sale indicator is present but its
computed display style is none, the extractor ignores it entirely: the
result is exactly what the other stages decide, never true from the
hidden indicator alone. -/
theorem claim_c6_hidden_presale (doc : Doc) (el : El)
    (h1 : (doc.find ".infobase-label-presale").head? = some el)
    (h2 : el.displayOf = some "none") :
    extractPreOrderStatus doc = preOrderStagesBC doc := by
  simp [extractPreOrderStatus, h1, h2]

/-- Witness for claim C6: a concrete hidden indicator page where the
remaining stages find nothing, so the result is false. -/
theorem claim_c6_witness :
    (hiddenPresaleDoc.find ".infobase-label-presale").head? =
      some (El.node "Pré-Venda" "" [] (some "none") fun _ => []) ∧
    extractPreOrderStatus hiddenPresaleDoc = preOrderStagesBC hiddenPresaleDoc ∧
    extractPreOrderStatus hiddenPresaleDoc = false := by
  refine ⟨rfl, ?_, by decide⟩
  exact claim_c6_hidden_presale hiddenPresaleDoc
    (El.node "Pré-Venda" "" [] (some "none") fun _ => []) rfl rfl

/-- Claim C7: for a document whose authors cell holds text t with a
non-empty token list, the contributors are the comma-split, trimmed,
length-filtered, first-seen-deduplicated tokens of t; the concrete text
A, A, B yields exactly A then B; a document without any authors source
yields the empty sequence. -/
theorem claim_c7_contributors_dedup (doc : Doc) (cell : El) (t : String)
    (h1 : doc.find "td[data-th=\"Autores\"]" = [cell])
    (h2 : cell.textOf = t)
    (h3 : splitNames (jsTrim t) ≠ []) :
    extractContributors doc = setDedup (splitNames (jsTrim t)) ∧
    extractContributors (authorsDoc "A, A, B") = ["A", "B"] ∧
    extractContributors emptyDoc = [] := by
  refine ⟨?_, by decide, by decide⟩
  have hsel : selText [cell] = t := by
    simp [selText, h2]
  have hte : jsTrim t ≠ "" := by
    intro hcontra
    apply h3
    rw [hcontra]
    decide
  rw [extractContributors, h1]
  simp only [hsel, List.isEmpty_cons, Bool.false_eq_true, if_false]
  rw [if_neg hte]
  rw [if_neg (by simpa [List.isEmpty_iff] using h3)]

/-- Witness for claim C7 at the concrete authors text. -/
theorem claim_c7_witness :
    (authorsDoc "A, A, B").find "td[data-th=\"Autores\"]" = [textEl "A, A, B"] ∧
    splitNames (jsTrim "A, A, B") ≠ [] ∧
    extractContributors (authorsDoc "A, A, B") = setDedup (splitNames (jsTrim "A, A, B")) ∧
    extractContributors (authorsDoc "A, A, B") = ["A", "B"] := by
  have h := claim_c7_contributors_dedup (authorsDoc "A, A, B") (textEl "A, A, B")
    "A, A, B" rfl rfl (by decide)
  exact ⟨rfl, by decide, h.1, h.2.1⟩

/-- Test of the error kind a pipeline result carries. -/
def resultIsInvalidUrl : Except JSError Product → Bool
  | .error e => e.name == "InvalidUrlError"
  | .ok _ => false

/-- The use-case normalization never produces the empty string. -/
theorem normalizeUrl_ne_empty (s : String) : normalizeUrl s ≠ "" := by
  rw [normalizeUrl]
  set normalized := if jsEndsWith s "/" then jsDropRight s 1 else s with hn
  by_cases h : (!(jsStartsWith normalized "http://") && !(jsStartsWith normalized "https://")) = true
  · rw [if_pos h]
    apply string_ne_empty_of_data
    rw [String.data_append]
    simp
  · rw [if_neg h]
    have hab : jsStartsWith normalized "http://" = true ∨
        jsStartsWith normalized "https://" = true := by
      by_cases h1 : jsStartsWith normalized "http://" = true
      · exact Or.inl h1
      · by_cases h2 : jsStartsWith normalized "https://" = true
        · exact Or.inr h2
        · have ha : jsStartsWith normalized "http://" = false := by simpa using h1
          have hb : jsStartsWith normalized "https://" = false := by simpa using h2
          exact absurd (by simp [ha, hb]) h
    intro hcontra
    have hdata : normalized.data = [] := by
      rw [hcontra]
    rcases hab with h1 | h1
    · rw [jsStartsWith, hdata] at h1
      exact absurd h1 (by decide)
    · rw [jsStartsWith, hdata] at h1
      exact absurd h1 (by decide)

/-- When URL validation passes, scrapeProduct performs exactly one
fetch, whatever the transport returns. -/
theorem scrapeProduct_trace_of_valid (net : String → Except JSError Doc)
    (jsonParse : JsonParse) (nowMs : Nat) (url : String)
    (h : validateUrlOk url = true) :
    (scrapeProduct net jsonParse nowMs url).2 = [url] := by
  rw [scrapeProduct, h]
  simp only [Bool.true_eq_false, if_false]
  cases scrapeAttempt net jsonParse nowMs url with
  | ok p => rfl
  | error e =>
    by_cases he : isProductEntityInstance e = true
    · simp [he]
    · simp [he]

/-- Counterexample to claim C8 as stated: the input panini.com.br/x does
not begin with an http or https panini.com.br prefix, yet the pipeline
does not fail with InvalidUrl and does invoke the HTTP client, because
the use case prepends the https scheme before the domain check runs. -/
theorem claim_c8_counterexample :
    paniniUrlTest "panini.com.br/x" = false ∧
    (execute failNet noJson 0 "panini.com.br/x").2 = ["https://panini.com.br/x"] ∧
    resultIsInvalidUrl (execute failNet noJson 0 "panini.com.br/x").1 = false ∧
    (execute failNet noJson 0 "panini.com.br/x").1 =
      .error (productScrapingError "Failed to scrape product: Network error"
        "https://panini.com.br/x") := by
  exact ⟨by decide, by decide, by decide, by decide⟩

/-- Claim C8 as amended: the single-URL pipeline fails with the
InvalidUrl kind and performs no fetch exactly when the input is empty or
whitespace, or when the normalized trimmed URL fails the domain prefix
test; the domain test applies to the normalized URL, not the raw
input. -/
theorem claim_c8_amended (net : String → Except JSError Doc) (jsonParse : JsonParse)
    (nowMs : Nat) (url : String) :
    ((execute net jsonParse nowMs url).2 = [] ∧
      resultIsInvalidUrl (execute net jsonParse nowMs url).1 = true) ↔
    (url = "" ∨ jsLength (jsTrim url) = 0 ∨
      paniniUrlTest (normalizeUrl (jsTrim url)) = false) := by
  by_cases hguard : (url = "" || jsLength (jsTrim url) = 0) = true
  · constructor
    · intro _
      rcases (by simpa using hguard : url = "" ∨ jsLength (jsTrim url) = 0) with h | h
      · exact Or.inl h
      · exact Or.inr (Or.inl h)
    · intro _
      rw [execute, if_pos hguard]
      constructor
      · rfl
      · rfl
  · have hval : validateUrlOk (normalizeUrl (jsTrim url)) =
        paniniUrlTest (normalizeUrl (jsTrim url)) := by
      rw [validateUrlOk]
      have hne : (normalizeUrl (jsTrim url) == "") = false := by
        simp [normalizeUrl_ne_empty (jsTrim url)]
      rw [hne]
      simp
    rw [execute, if_neg hguard]
    by_cases htest : paniniUrlTest (normalizeUrl (jsTrim url)) = true
    · have htrace := scrapeProduct_trace_of_valid net jsonParse nowMs
        (normalizeUrl (jsTrim url)) (by rw [hval, htest])
      constructor
      · intro hcon
        rw [htrace] at hcon
        exact absurd hcon.1 (by simp)
      · intro hcon
        rcases hcon with h | h | h
        · exact absurd (by simp [h]) hguard
        · exact absurd (by simp [h]) hguard
        · rw [h] at htest
          simp at htest
    · have hfail : validateUrlOk (normalizeUrl (jsTrim url)) = false := by
        rw [hval]
        simpa using htest
      rw [scrapeProduct, hfail]
      constructor
      · intro _
        exact Or.inr (Or.inr (by simpa using htest))
      · intro _
        simp [resultIsInvalidUrl, invalidUrlError]

/-! ## Lemmas about the batch orchestrator -/

/-- Recursive characterization of the executeMany fold, building the
result lists from the front. -/
def runBatch (net : String → Except JSError Doc) (jsonParse : JsonParse) (nowMs : Nat) :
    List String →
      List (String × Product) × List (String × JSError × String) × List String
  | [] => ([], [], [])
  | url :: rest =>
    let r := execute net jsonParse nowMs url
    let acc := runBatch net jsonParse nowMs rest
    match r.1 with
    | .ok product => ((url, product) :: acc.1, acc.2.1, r.2 ++ acc.2.2)
    | .error e =>
      let scrapingError :=
        if isProductScrapingErr e then e
        else productScrapingError e.message url
      (acc.1, (url, scrapingError, scrapingError.message) :: acc.2.1, r.2 ++ acc.2.2)

/-- The executeMany fold equals the recursive characterization, modulo
the initial accumulator appended on the left. -/
theorem batchFold_eq_runBatch (net : String → Except JSError Doc) (jsonParse : JsonParse)
    (nowMs : Nat) (urls : List String)
    (s : List (String × Product)) (f : List (String × JSError × String))
    (tr : List String) :
    urls.foldl (batchStep net jsonParse nowMs) (s, f, tr) =
      (s ++ (runBatch net jsonParse nowMs urls).1,
        f ++ (runBatch net jsonParse nowMs urls).2.1,
        tr ++ (runBatch net jsonParse nowMs urls).2.2) := by
  induction urls generalizing s f tr with
  | nil => simp [runBatch]
  | cons url rest ih =>
    rw [List.foldl_cons]
    rw [runBatch]
    cases hr : (execute net jsonParse nowMs url).1 with
    | ok product =>
      have hstep : batchStep net jsonParse nowMs (s, f, tr) url =
          (s ++ [(url, product)], f, tr ++ (execute net jsonParse nowMs url).2) := by
        rw [batchStep, hr]
      rw [hstep, ih]
      simp
    | error e =>
      have hstep : batchStep net jsonParse nowMs (s, f, tr) url =
          (s, f ++ [(url,
            if isProductScrapingErr e then e else productScrapingError e.message url,
            (if isProductScrapingErr e then e else productScrapingError e.message url).message)],
            tr ++ (execute net jsonParse nowMs url).2) := by
        rw [batchStep, hr]
      rw [hstep, ih]
      simp

/-- executeMany in terms of the recursive characterization. -/
theorem executeMany_eq_runBatch (net : String → Except JSError Doc) (jsonParse : JsonParse)
    (nowMs : Nat) (urls : List String) :
    executeMany net jsonParse nowMs urls =
      (⟨(runBatch net jsonParse nowMs urls).1, (runBatch net jsonParse nowMs urls).2.1,
        urls.length, (runBatch net jsonParse nowMs urls).1.length,
        (runBatch net jsonParse nowMs urls).2.1.length⟩,
        (runBatch net jsonParse nowMs urls).2.2) := by
  rw [executeMany, batchFold_eq_runBatch]
  simp

/-- Every URL contributes exactly one entry: the per-URL counts of the
two result lists always sum to the count in the input. -/
theorem runBatch_count (net : String → Except JSError Doc) (jsonParse : JsonParse)
    (nowMs : Nat) (urls : List String) (u : String) :
    ((runBatch net jsonParse nowMs urls).1.map Prod.fst).count u +
      ((runBatch net jsonParse nowMs urls).2.1.map (fun x => x.1)).count u =
      urls.count u := by
  induction urls with
  | nil => simp [runBatch]
  | cons url rest ih =>
    rw [runBatch]
    cases hr : (execute net jsonParse nowMs url).1 with
    | ok product =>
      simp only [List.map_cons, List.count_cons]
      split <;> omega
    | error e =>
      simp only [List.map_cons, List.count_cons]
      split <;> omega

/-- The result lists partition the input: their lengths sum to the input
length. -/
theorem runBatch_length (net : String → Except JSError Doc) (jsonParse : JsonParse)
    (nowMs : Nat) (urls : List String) :
    (runBatch net jsonParse nowMs urls).1.length +
      (runBatch net jsonParse nowMs urls).2.1.length = urls.length := by
  induction urls with
  | nil => simp [runBatch]
  | cons url rest ih =>
    rw [runBatch]
    cases hr : (execute net jsonParse nowMs url).1 with
    | ok product => simp only [List.length_cons]; omega
    | error e => simp only [List.length_cons]; omega

/-- The successes preserve the relative input order of their URLs. -/
theorem runBatch_successes_sublist (net : String → Except JSError Doc)
    (jsonParse : JsonParse) (nowMs : Nat) (urls : List String) :
    List.Sublist ((runBatch net jsonParse nowMs urls).1.map Prod.fst) urls := by
  induction urls with
  | nil => simp [runBatch]
  | cons url rest ih =>
    rw [runBatch]
    cases hr : (execute net jsonParse nowMs url).1 with
    | ok product =>
      simp only [List.map_cons]
      exact List.Sublist.cons₂ url ih
    | error e =>
      exact List.Sublist.cons url ih

/-- The failures preserve the relative input order of their URLs. -/
theorem runBatch_failures_sublist (net : String → Except JSError Doc)
    (jsonParse : JsonParse) (nowMs : Nat) (urls : List String) :
    List.Sublist ((runBatch net jsonParse nowMs urls).2.1.map (fun x => x.1)) urls := by
  induction urls with
  | nil => simp [runBatch]
  | cons url rest ih =>
    rw [runBatch]
    cases hr : (execute net jsonParse nowMs url).1 with
    | ok product =>
      exact List.Sublist.cons url ih
    | error e =>
      simp only [List.map_cons]
      exact List.Sublist.cons₂ url ih

/-- The fetch trace of one execute call is the expected fetch of its
input. -/
theorem execute_trace (net : String → Except JSError Doc) (jsonParse : JsonParse)
    (nowMs : Nat) (url : String) :
    (execute net jsonParse nowMs url).2 = (expectedFetch url).toList := by
  rw [execute, expectedFetch]
  by_cases hguard : (url = "" || jsLength (jsTrim url) = 0) = true
  · simp only [if_pos hguard]
    rfl
  · simp only [if_neg hguard]
    by_cases hv : validateUrlOk (normalizeUrl (jsTrim url)) = true
    · rw [scrapeProduct_trace_of_valid net jsonParse nowMs _ hv]
      simp only [if_pos hv]
      rfl
    · have hvf : validateUrlOk (normalizeUrl (jsTrim url)) = false := by simpa using hv
      rw [scrapeProduct, hvf]
      simp only [if_neg hv]
      simp

/-- The batch fetch trace is the in-order concatenation of the per-URL
expected fetches. -/
theorem runBatch_trace (net : String → Except JSError Doc) (jsonParse : JsonParse)
    (nowMs : Nat) (urls : List String) :
    (runBatch net jsonParse nowMs urls).2.2 = urls.filterMap expectedFetch := by
  induction urls with
  | nil => simp [runBatch]
  | cons url rest ih =>
    rw [runBatch, List.filterMap_cons]
    cases hr : (execute net jsonParse nowMs url).1 with
    | ok product =>
      simp only []
      rw [execute_trace, ih]
      cases expectedFetch url with
      | none => rfl
      | some n => rfl
    | error e =>
      simp only []
      rw [execute_trace, ih]
      cases expectedFetch url with
      | none => rfl
      | some n => rfl

/-- Claim C2: executeMany partitions every input list: the derived
counts are the list lengths, they sum to the number processed, which is
the input length; each URL occurrence lands in exactly one of the two
lists; the empty input yields the empty zero-count result. -/
theorem claim_c2_batch_partition (net : String → Except JSError Doc)
    (jsonParse : JsonParse) (nowMs : Nat) (urls : List String) :
    (executeMany net jsonParse nowMs urls).1.successCount +
        (executeMany net jsonParse nowMs urls).1.failureCount =
      (executeMany net jsonParse nowMs urls).1.totalProcessed ∧
    (executeMany net jsonParse nowMs urls).1.totalProcessed = urls.length ∧
    (executeMany net jsonParse nowMs urls).1.successCount =
      (executeMany net jsonParse nowMs urls).1.successes.length ∧
    (executeMany net jsonParse nowMs urls).1.failureCount =
      (executeMany net jsonParse nowMs urls).1.failures.length ∧
    (∀ u, ((executeMany net jsonParse nowMs urls).1.successes.map Prod.fst).count u +
        ((executeMany net jsonParse nowMs urls).1.failures.map (fun x => x.1)).count u =
      urls.count u) ∧
    (executeMany net jsonParse nowMs []).1 = ⟨[], [], 0, 0, 0⟩ := by
  rw [executeMany_eq_runBatch]
  refine ⟨runBatch_length net jsonParse nowMs urls, rfl, rfl, rfl,
    runBatch_count net jsonParse nowMs urls, ?_⟩
  rw [executeMany_eq_runBatch]
  rfl

/-- Claim C3: the batch orchestrator is sequential in input order: its
fetch trace is exactly the in-order list of per-URL fetches (one fetch
per URL that reaches the transport, none for rejected inputs), and both
result sequences preserve the relative input order of their URLs. -/
theorem claim_c3_batch_sequential_order (net : String → Except JSError Doc)
    (jsonParse : JsonParse) (nowMs : Nat) (urls : List String) :
    (executeMany net jsonParse nowMs urls).2 = urls.filterMap expectedFetch ∧
    List.Sublist ((executeMany net jsonParse nowMs urls).1.successes.map Prod.fst) urls ∧
    List.Sublist ((executeMany net jsonParse nowMs urls).1.failures.map (fun x => x.1))
      urls := by
  rw [executeMany_eq_runBatch]
  exact ⟨runBatch_trace net jsonParse nowMs urls,
    runBatch_successes_sublist net jsonParse nowMs urls,
    runBatch_failures_sublist net jsonParse nowMs urls⟩

/-! ## Lemmas about the image extractor -/

/-- A prefix of an append is a prefix of the left part or extends it. -/
theorem prefix_append_split {α : Type} {m x y : List α} (h : m <+: x ++ y) :
    m <+: x ∨ ∃ y₁, y₁ <+: y ∧ m = x ++ y₁ := by
  induction x generalizing m with
  | nil =>
    refine Or.inr ⟨m, by simpa using h, by simp⟩
  | cons a x' ih =>
    cases m with
    | nil => exact Or.inl ⟨a :: x', by simp⟩
    | cons b m' =>
      rw [List.cons_append] at h
      rcases List.cons_prefix_cons.mp h with ⟨hb, hm'⟩
      rcases ih hm' with h1 | ⟨y₁, hy₁, hm⟩
      · exact Or.inl (by rw [hb]; exact List.cons_prefix_cons.mpr ⟨rfl, h1⟩)
      · exact Or.inr ⟨y₁, hy₁, by rw [hb, hm]; rfl⟩

/-- An infix of an append lies in the left part, lies in the right part,
or straddles the boundary: a proper non-empty head of it is a suffix of
the left part and the matching tail a prefix of the right part. -/
theorem infix_append_split {α : Type} {m x y : List α} (h : m <:+: x ++ y) :
    m <:+: x ∨ m <:+: y ∨
      ∃ i, 0 < i ∧ i < m.length ∧ m.take i <:+ x ∧ m.drop i <+: y := by
  induction x generalizing m with
  | nil => exact Or.inr (Or.inl (by simpa using h))
  | cons a x' ih =>
    rw [List.cons_append] at h
    rcases List.infix_cons_iff.mp h with h1 | h1
    · have h2 : m <+: (a :: x') ++ y := by simpa using h1
      rcases prefix_append_split h2 with h3 | ⟨y₁, hy₁, hm⟩
      · exact Or.inl h3.isInfix
      · by_cases hy : y₁ = []
        · subst hy
          rw [List.append_nil] at hm
          exact Or.inl (hm ▸ List.infix_refl _)
        · refine Or.inr (Or.inr ⟨(a :: x').length, by simp, ?_, ?_, ?_⟩)
          · rw [hm, List.length_append]
            have hpos := List.length_pos.mpr hy
            omega
          · rw [hm, List.take_left]
          · rw [hm, List.drop_left]
            exact hy₁
    · rcases ih h1 with h2 | h2 | ⟨i, hi0, hilen, htake, hdrop⟩
      · exact Or.inl (List.infix_cons h2)
      · exact Or.inr (Or.inl h2)
      · exact Or.inr (Or.inr ⟨i, hi0, hilen, htake.trans (List.suffix_cons a x'), hdrop⟩)

/-- No placeholder marker occurs in the lowered base URL. -/
theorem marker_not_in_base :
    ∀ p ∈ placeholderPatterns, ¬((jsToLower p).data <:+: (jsToLower baseUrl).data) := by
  decide

/-- No placeholder marker straddles the end of the base URL: no proper
non-empty head of a marker is a suffix of the lowered base URL. -/
theorem marker_no_straddle :
    ∀ p ∈ placeholderPatterns, ∀ i < (jsToLower p).data.length,
      ¬(0 < i ∧ ((jsToLower p).data.take i) <:+ (jsToLower baseUrl).data) := by
  decide

/-- Resolving a root-relative path against the base URL cannot create a
placeholder: the markers neither occur in the base URL nor straddle the
concatenation boundary. -/
theorem placeholder_prepend {src : String}
    (h : isPlaceholderImage src = false) :
    isPlaceholderImage (baseUrl ++ src) = false := by
  rw [isPlaceholderImage] at h ⊢
  rw [List.any_eq_false] at h ⊢
  intro p hp
  have hs := h p hp
  rw [jsIncludes] at hs ⊢
  simp only [decide_eq_true_eq] at hs ⊢
  intro hinf
  have hdata : (jsToLower (baseUrl ++ src)).data =
      (jsToLower baseUrl).data ++ (jsToLower src).data := by
    simp [jsToLower, String.data_append]
  rw [hdata] at hinf
  rcases infix_append_split hinf with h1 | h1 | ⟨i, hi0, hilen, htake, _⟩
  · exact marker_not_in_base p hp h1
  · exact hs h1
  · exact marker_no_straddle p hp i hilen ⟨hi0, htake⟩

/-- Components of a true boolean conjunction. -/
theorem bool_and_elim {a b : Bool} (h : (a && b) = true) : a = true ∧ b = true := by
  constructor
  · exact (Bool.and_eq_true a b ▸ h).1
  · exact (Bool.and_eq_true a b ▸ h).2

/-- Stage one only returns values that passed its placeholder filter. -/
theorem imageStageOne_not_placeholder {doc : Doc} {s : String}
    (h : imageStageOne doc = some s) : isPlaceholderImage s = false := by
  obtain ⟨sel, _, hf⟩ := List.exists_of_findSome?_eq_some h
  dsimp only at hf
  split at hf
  · rename_i hc
    obtain rfl := Option.some.inj hf
    have h2 := (bool_and_elim hc).2
    rwa [Bool.not_eq_true'] at h2
  · exact absurd hf (by simp)

/-- The CDN attribute scan only returns the empty string or a value that
passed its placeholder filter. -/
theorem findExternalImage_ok (imgs : List El) :
    findExternalImage imgs = "" ∨
      isPlaceholderImage (findExternalImage imgs) = false := by
  induction imgs with
  | nil => exact Or.inl rfl
  | cons img rest ih =>
    rw [findExternalImage]
    cases hf : (imgSrcAttrs img).findSome? (fun src? =>
      match src? with
      | some src =>
        if !(src == "") && (jsIncludes src "cloudfront" || jsIncludes src "amazonaws.com") &&
            !isPlaceholderImage src then some src
        else none
      | none => none) with
    | none => exact ih
    | some s =>
      refine Or.inr ?_
      obtain ⟨src?, _, hg⟩ := List.exists_of_findSome?_eq_some hf
      match src? with
      | none => exact absurd hg (by simp)
      | some src =>
        dsimp only at hg
        split at hg
        · rename_i hc
          obtain rfl := Option.some.inj hg
          have h2 := (bool_and_elim hc).2
          rwa [Bool.not_eq_true'] at h2
        · exact absurd hg (by simp)

/-- The JSON branch only returns values that passed its placeholder
filter, with root-relative values resolved against the base URL. -/
theorem jsonImageRef_not_placeholder {jsonParse : JsonParse} {content : String}
    {v : String} (h : jsonImageRef jsonParse content = some v) :
    isPlaceholderImage v = false := by
  obtain ⟨frag, _, hf⟩ := List.exists_of_findSome?_eq_some h
  match hp : jsonParse frag with
  | none => rw [hp] at hf; exact absurd hf (by simp)
  | some obj =>
    rw [hp] at hf
    obtain ⟨field, _, hg⟩ := List.exists_of_findSome?_eq_some hf
    match hv : obj field with
    | none => rw [hv] at hg; exact absurd hg (by simp)
    | some imageUrl =>
      rw [hv] at hg
      simp only [] at hg
      by_cases hc : (!(imageUrl == "") && !isPlaceholderImage imageUrl &&
          (jsIncludes imageUrl "http" || jsStartsWith imageUrl "/")) = true
      · rw [if_pos hc] at hg
        have hveq : v =
            if jsStartsWith imageUrl "/" = true then baseUrl ++ imageUrl else imageUrl :=
          (Option.some.inj hg).symm
        have h2 := (bool_and_elim (bool_and_elim hc).1).2
        rw [Bool.not_eq_true'] at h2
        rw [hveq]
        by_cases hsl : jsStartsWith imageUrl "/" = true
        · rw [if_pos hsl]
          exact placeholder_prepend h2
        · rw [if_neg hsl]
          exact h2
      · rw [if_neg hc] at hg
        exact absurd hg (by simp)

/-- Per-script processing only returns placeholder-free values when the
script contains no direct CloudFront image URL. -/
theorem scriptImage_not_placeholder {jsonParse : JsonParse} {content : String}
    {v : String} (hcf : cfFirstMatch content = none)
    (h : scriptImage jsonParse content = some v) :
    isPlaceholderImage v = false := by
  rw [scriptImage] at h
  match hj : jsonImageRef jsonParse content with
  | some w =>
    rw [hj] at h
    obtain rfl := Option.some.inj h
    exact jsonImageRef_not_placeholder hj
  | none =>
    rw [hj, hcf] at h
    match hl : (cdnAllMatches content).filter (fun url =>
        !isPlaceholderImage url && !jsIncludes url "facebook.com" &&
          !jsIncludes url "twitter.com" && !jsIncludes url "instagram.com") with
    | [] => rw [hl] at h; exact absurd h (by simp)
    | a :: t =>
      rw [hl] at h
      have hva : v = a := (Option.some.inj h).symm
      subst hva
      have hmem : v ∈ (cdnAllMatches content).filter (fun url =>
          !isPlaceholderImage url && !jsIncludes url "facebook.com" &&
            !jsIncludes url "twitter.com" && !jsIncludes url "instagram.com") := by
        rw [hl]
        exact List.mem_cons_self v t
      have hpred := (List.mem_filter.mp hmem).2
      have h2 := (bool_and_elim (bool_and_elim (bool_and_elim hpred).1).1).1
      rwa [Bool.not_eq_true'] at h2

/-- The script loop only returns the empty string or a placeholder-free
value when no script contains a direct CloudFront image URL. -/
theorem tryConstructImageUrl_ok (jsonParse : JsonParse) (els : List El)
    (h : ∀ el ∈ els, cfFirstMatch el.innerOf = none) :
    tryConstructImageUrl.go jsonParse els = "" ∨
      isPlaceholderImage (tryConstructImageUrl.go jsonParse els) = false := by
  induction els with
  | nil => exact Or.inl rfl
  | cons s rest ih =>
    rw [tryConstructImageUrl.go]
    cases hs : scriptImage jsonParse s.innerOf with
    | none =>
      exact ih (fun el hel => h el (by simp [hel]))
    | some img =>
      exact Or.inr (scriptImage_not_placeholder (h s (by simp)) hs)

/-- The structural selector stage only returns values that passed the
placeholder filter applied after relative resolution. -/
theorem imageStageFour_not_placeholder {doc : Doc} {s : String}
    (h : imageStageFour doc = some s) : isPlaceholderImage s = false := by
  obtain ⟨sel, _, hf⟩ := List.exists_of_findSome?_eq_some h
  dsimp only at hf
  split at hf
  · split at hf
    · split at hf
      · rename_i hc2
        obtain rfl := Option.some.inj hf
        have h2 := (bool_and_elim hc2).2
        rwa [Bool.not_eq_true'] at h2
      · exact absurd hf (by simp)
    · split at hf
      · rename_i hc2
        obtain rfl := Option.some.inj hf
        have h2 := (bool_and_elim hc2).2
        rwa [Bool.not_eq_true'] at h2
      · exact absurd hf (by simp)
  · exact absurd hf (by simp)

/-- The container stage only returns values that passed the placeholder
filter applied after relative resolution. -/
theorem imageStageContainers_not_placeholder {doc : Doc} {s : String}
    (h : imageStageContainers doc = some s) : isPlaceholderImage s = false := by
  obtain ⟨sel, _, hf⟩ := List.exists_of_findSome?_eq_some h
  dsimp only at hf
  split at hf
  · exact absurd hf (by simp)
  · split at hf
    · split at hf
      · split at hf
        · rename_i hc2
          obtain rfl := Option.some.inj hf
          have h2 := (bool_and_elim hc2).2
          rwa [Bool.not_eq_true'] at h2
        · exact absurd hf (by simp)
      · split at hf
        · rename_i hc2
          obtain rfl := Option.some.inj hf
          have h2 := (bool_and_elim hc2).2
          rwa [Bool.not_eq_true'] at h2
        · exact absurd hf (by simp)
    · exact absurd hf (by simp)

/-- Invariant preservation for a left fold. -/
theorem foldl_preserve {α β : Type} (P : α → Prop) {f : α → β → α}
    (hstep : ∀ a x, P a → P (f a x)) :
    ∀ (l : List β) (init : α), P init → P (l.foldl f init) := by
  intro l
  induction l with
  | nil => intro init h; exact h
  | cons x xs ih =>
    intro init h
    rw [List.foldl_cons]
    exact ih (f init x) (hstep init x h)

/-- The last-resort scan only returns the empty string or a
placeholder-free value. -/
theorem fallbackScan_ok (imgs : List El) :
    fallbackScan imgs = "" ∨ isPlaceholderImage (fallbackScan imgs) = false := by
  rw [fallbackScan]
  refine foldl_preserve (fun a => a = "" ∨ isPlaceholderImage a = false)
    ?_ imgs "" (Or.inl rfl)
  intro acc img hacc
  refine foldl_preserve (fun a => a = "" ∨ isPlaceholderImage a = false)
    ?_ (imgSrcAttrs img) acc hacc
  intro acc2 src? hacc2
  cases src? with
  | none => exact hacc2
  | some src =>
    dsimp only
    by_cases hq : fallbackQualifies src = true
    · rw [if_pos hq]
      by_cases hempty : acc2 = ""
      · rw [if_pos hempty]
        have hnp : isPlaceholderImage src = false := by
          have h2 := (bool_and_elim (bool_and_elim (bool_and_elim (bool_and_elim
            (bool_and_elim (bool_and_elim hq).1).1).1).1).1).2
          rwa [Bool.not_eq_true'] at h2
        by_cases hsl : jsStartsWith src "/" = true
        · rw [if_pos hsl]
          exact Or.inr (placeholder_prepend hnp)
        · rw [if_neg hsl]
          exact Or.inr hnp
      · rw [if_neg hempty]
        exact hacc2
    · rw [if_neg hq]
      exact hacc2

/-- Counterexample to claim C9 as stated: a page whose only image source
is a CloudFront placeholder URL inside a script yields that placeholder,
because the direct CloudFront regex branch of tryConstructImageUrl
returns its match without the placeholder check every other branch
applies. -/
theorem claim_c9_counterexample :
    extractImageUrl noJson cfPlaceholderDoc =
      "https://d1.cloudfront.net/placeholder.jpg" ∧
    isPlaceholderImage "https://d1.cloudfront.net/placeholder.jpg" = true ∧
    cfFirstMatch "var img = https://d1.cloudfront.net/placeholder.jpg ;" =
      some "https://d1.cloudfront.net/placeholder.jpg" := by
  exact ⟨by decide, by decide, by decide⟩

/-- Claim C9 as amended: for every document whose scripts contain no
direct CloudFront image URL, the image extractor returns either the
empty string (the valid absent-image value) or a URL for which the
placeholder predicate is false; the only path that can surface a
placeholder is the unfiltered CloudFront regex branch of the script
scan. -/
theorem claim_c9_amended (jsonParse : JsonParse) (doc : Doc)
    (h : ∀ el ∈ doc.find "script", cfFirstMatch el.innerOf = none) :
    extractImageUrl jsonParse doc = "" ∨
      isPlaceholderImage (extractImageUrl jsonParse doc) = false := by
  rw [extractImageUrl]
  cases h1 : imageStageOne doc with
  | some src => exact Or.inr (imageStageOne_not_placeholder h1)
  | none =>
    simp only []
    by_cases h2 : findExternalImage (doc.find "img") ≠ ""
    · rw [if_pos h2]
      rcases findExternalImage_ok (doc.find "img") with h3 | h3
      · exact absurd h3 h2
      · exact Or.inr h3
    · rw [if_neg h2]
      by_cases h3 : tryConstructImageUrl jsonParse doc ≠ ""
      · rw [if_pos h3]
        rcases tryConstructImageUrl_ok jsonParse (doc.find "script") h with h4 | h4
        · exact absurd h4 h3
        · exact Or.inr h4
      · rw [if_neg h3]
        cases h4 : imageStageFour doc with
        | some src => exact Or.inr (imageStageFour_not_placeholder h4)
        | none =>
          simp only []
          cases h5 : imageStageContainers doc with
          | some src => exact Or.inr (imageStageContainers_not_placeholder h5)
          | none =>
            simp only []
            by_cases h6 : fallbackScan (doc.find "img") ≠ ""
            · rw [if_pos h6]
              rcases fallbackScan_ok (doc.find "img") with h7 | h7
              · exact absurd h7 h6
              · exact Or.inr h7
            · rw [if_neg h6]
              exact Or.inl rfl

/-- Witness for the amended claim C9: the empty document has no scripts
and yields the empty string. -/
theorem claim_c9_witness :
    (∀ el ∈ emptyDoc.find "script", cfFirstMatch el.innerOf = none) ∧
    (extractImageUrl noJson emptyDoc = "" ∨
      isPlaceholderImage (extractImageUrl noJson emptyDoc) = false) := by
  have hscripts : ∀ el ∈ emptyDoc.find "script", cfFirstMatch el.innerOf = none := by
    intro el hel
    simp [emptyDoc] at hel
  exact ⟨hscripts, claim_c9_amended noJson emptyDoc hscripts⟩
